import Mathlib

/-!
# DockPulse dashboard core: shallow embedding and verification

A shallow embedding, in Lean 4, of the state-management and bulk-execution
core of the DockPulse container dashboard (Go), together with proofs about
its metrics ring buffers, selection state machine, bulk-action runner and
rendering helpers.

Modelling conventions:
* Go `float64` samples are modelled as `ℚ`; every property proved here is
  insensitive to floating-point rounding (byte/character counts, exact
  zero-maximum fallbacks, and clamping expressed as in the source).
* Go `map[string]bool` sets are modelled as duplicate-free `List String`
  with membership semantics (`delete` = `List.erase`, insert = append).
* Go strings that the source manipulates *by bytes* (`len`, slicing in
  `createSparkline`) are modelled as `List ℕ` of UTF-8 bytes; the block
  characters U+2581 … U+2588 each encode as three bytes `E2 96 (81+i)`.
* The external docker client is modelled as an oracle
  `BulkAction → String → Bool` saying whether a lifecycle call succeeds.
-/

namespace DockPulse

/-- `docker.ContainerInfo` (src/unnamed/part_002, lines 251-259). -/
structure ContainerInfo where
  id : String
  name : String
  status : String
  image : String
  created : String
  ports : String
  state : String

/-- Go `int(x)` conversion of a float: truncation toward zero
(round down for nonnegative values, up for negative ones). -/
def goTrunc (q : ℚ) : ℤ :=
  if 0 ≤ q then q.floor else q.ceil

/-! ## DrawGraph (src/unnamed/part_003, lines 7-19) -/

/-- `DrawGraph` renders a horizontal percentage bar: clamp `value` into
`[0,100]`, fill `int((value/100)*width)` cells with `█`, pad the rest
with `░`.  (`strings.Repeat` with the Go `int` counts; both counts are
nonnegative here, witnessed by `Int.toNat`.) -/
def DrawGraph (value : ℚ) (width : ℕ) : List Char :=
  let v1 := if value < 0 then (0 : ℚ) else value
  let v2 := if v1 > 100 then (100 : ℚ) else v1
  let filled : ℤ := goTrunc (v2 / 100 * (width : ℚ))
  let empty : ℤ := (width : ℤ) - filled
  List.replicate filled.toNat '█' ++ List.replicate empty.toNat '░'

/-! ## Metrics ring buffers -/

/-- One append step of the ring buffers: Go `append` followed by
`buf = buf[1:]` when the length exceeds the capacity `cap`.  This is the
common body of `StatsViewer.AddCPU/AddMem` (src/internal/ui/dashboard/
showStats.go, lines 33-45) and `StatsHistory.AddCPU/AddMem`
(src/unnamed/part_003, lines 65-81). -/
def ringAppend (cap : ℕ) (buf : List ℚ) (v : ℚ) : List ℚ :=
  let b := buf ++ [v]
  if b.length > cap then b.drop 1 else b

/-- `StatsViewer` (src/internal/ui/dashboard/showStats.go, lines 15-21). -/
structure StatsViewer where
  cpuHistory : List ℚ
  memHistory : List ℚ
  netRxHistory : List ℚ
  netTxHistory : List ℚ
  maxDataPoints : ℕ

/-- `NewStatsViewer` (showStats.go, lines 23-31): empty buffers,
capacity 60. -/
def NewStatsViewer : StatsViewer :=
  ⟨[], [], [], [], 60⟩

/-- `StatsViewer.AddCPU` (showStats.go, lines 33-38). -/
def StatsViewer.AddCPU (sv : StatsViewer) (value : ℚ) : StatsViewer :=
  { sv with cpuHistory := ringAppend sv.maxDataPoints sv.cpuHistory value }

/-- `StatsViewer.AddMem` (showStats.go, lines 40-45). -/
def StatsViewer.AddMem (sv : StatsViewer) (value : ℚ) : StatsViewer :=
  { sv with memHistory := ringAppend sv.maxDataPoints sv.memHistory value }

/-- `StatsHistory` (src/unnamed/part_003, lines 52-56); the mutex only
serialises access and is not part of the functional state. -/
structure StatsHistory where
  cpuHistory : List ℚ
  memHistory : List ℚ

/-- `NewStatsHistory` (part_003, lines 58-63): empty buffers, capacity 30
is hard-coded in the `Add` methods. -/
def NewStatsHistory : StatsHistory :=
  ⟨[], []⟩

/-- `StatsHistory.AddCPU` (part_003, lines 65-72). -/
def StatsHistory.AddCPU (sh : StatsHistory) (value : ℚ) : StatsHistory :=
  { sh with cpuHistory := ringAppend 30 sh.cpuHistory value }

/-- `StatsHistory.AddMem` (part_003, lines 74-81). -/
def StatsHistory.AddMem (sh : StatsHistory) (value : ℚ) : StatsHistory :=
  { sh with memHistory := ringAppend 30 sh.memHistory value }

/-! ## Sparkline rendering, at byte level

`createSparkline` (showStats.go, lines 71-111) and `createMiniGraph`
(part_003, lines 101-132) build Go strings out of the Unicode block
characters `▁▂▃▄▅▆▇█` (U+2581 … U+2588) and then measure and slice them
with Go's byte-based `len` and `s[i:]`.  We therefore model the produced
strings as lists of UTF-8 bytes. -/

/-- UTF-8 encoding of the block character `U+2581 + i` (for `i < 8`):
three bytes `E2 96 (81+i)`. -/
def blockBytes (i : ℕ) : List ℕ :=
  [0xE2, 0x96, 0x81 + i]

/-- The running maximum of the buffer as the Go loops compute it:
`max := 0.0; for _, v := range data { if v > max { max = v } }`. -/
def goMax (data : List ℚ) : ℚ :=
  data.foldl (fun m v => if v > m then v else m) 0

/-- The normalization denominator: `if max == 0 { max = 1 }`
(showStats.go lines 82-84; part_003 lines 112-114). -/
def sparkDenom (data : List ℚ) : ℚ :=
  if goMax data = 0 then 1 else goMax data

/-- Intensity level chosen for one sample (both sparkline functions):
`index := int(v/max * float64(len(blocks)-1))`, clamped into `[0,7]`. -/
def levelIdx (m v : ℚ) : ℕ :=
  let normalized := v / m
  let index := goTrunc (normalized * 7)
  let index := if index < 0 then 0 else index
  let index := if index ≥ 8 then 7 else index
  index.toNat

/-- The sequence of intensity levels `createSparkline` emits before byte
truncation: left padding `width - len(data)` baseline cells when that
difference is positive (showStats.go lines 89-92), then one level per
sample in order. -/
def sparkLevels (data : List ℚ) (width : ℕ) : List ℕ :=
  List.replicate ((width : ℤ) - data.length).toNat 0 ++
    data.map (levelIdx (sparkDenom data))

/-- `StatsViewer.createSparkline` (showStats.go, lines 71-111), as the
list of UTF-8 bytes of the returned string.  An empty buffer returns
`strings.Repeat("▁", width)` directly; otherwise the padded level string
is built and then—`if len(result) > width`—sliced to its last `width`
BYTES (`result[len(result)-width:]`), because Go `len` and slicing count
bytes, not characters. -/
def createSparkline (data : List ℚ) (width : ℕ) : List ℕ :=
  if data.length = 0 then
    (List.replicate width (blockBytes 0)).flatten
  else
    let result := ((sparkLevels data width).map blockBytes).flatten
    if result.length > width then result.drop (result.length - width)
    else result

/-- `createMiniGraph` (part_003, lines 101-132), as UTF-8 bytes.  The
`width` parameter is accepted but never used by the source: no padding
and no truncation happen, one block character per sample. -/
def createMiniGraph (data : List ℚ) (width : ℕ) : List ℕ :=
  if data.length = 0 then []
  else ((data.map (levelIdx (sparkDenom data))).map blockBytes).flatten

/-- `StatsHistory.GetCPUGraph` (part_003, lines 83-90): empty buffer
renders as the empty string, otherwise `createMiniGraph(cpuHistory, 30)`. -/
def StatsHistory.GetCPUGraph (sh : StatsHistory) : List ℕ :=
  if sh.cpuHistory.length = 0 then []
  else createMiniGraph sh.cpuHistory 30

/-- Number of characters encoded by a UTF-8 byte list: count the bytes
that are not continuation bytes (`0x80-0xBF`). -/
def utf8Count (bs : List ℕ) : ℕ :=
  bs.countP (fun b => !(0x80 ≤ b && b ≤ 0xBF))

/-! ## SelectionSet: BulkOperationMode (src/unnamed/part_004) -/

/-- `BulkOperationMode` (part_004, lines 113-117): the enabled flag and
the selected-id set (`map[string]bool`, modelled as a duplicate-free
list); the `RWMutex` only serialises access. -/
structure BulkOperationMode where
  enabled : Bool
  selectedIDs : List String

/-- `NewBulkOperationMode` (part_004, lines 119-123). -/
def NewBulkOperationMode : BulkOperationMode :=
  ⟨false, []⟩

/-- `Toggle` (part_004, lines 125-132): flip `enabled`; if it became
false, replace the id set with a fresh empty one. -/
def BulkOperationMode.Toggle (b : BulkOperationMode) : BulkOperationMode :=
  let e := !b.enabled
  ⟨e, if e then b.selectedIDs else []⟩

/-- `IsEnabled` (part_004, lines 134-138). -/
def BulkOperationMode.IsEnabled (b : BulkOperationMode) : Bool :=
  b.enabled

/-- `ToggleContainer` (part_004, lines 140-148): delete the id if
present, insert it otherwise.  The source consults only `selectedIDs`;
it does NOT test `enabled`. -/
def BulkOperationMode.ToggleContainer (b : BulkOperationMode) (id : String) :
    BulkOperationMode :=
  if id ∈ b.selectedIDs then { b with selectedIDs := b.selectedIDs.erase id }
  else { b with selectedIDs := b.selectedIDs ++ [id] }

/-- `IsSelected` (part_004, lines 150-154). -/
def BulkOperationMode.IsSelected (b : BulkOperationMode) (id : String) : Bool :=
  b.selectedIDs.contains id

/-- `GetSelected` (part_004, lines 156-164). -/
def BulkOperationMode.GetSelected (b : BulkOperationMode) : List String :=
  b.selectedIDs

/-- `Count` (part_004, lines 166-170). -/
def BulkOperationMode.Count (b : BulkOperationMode) : ℕ :=
  b.selectedIDs.length

/-- `Clear` (part_004, lines 172-176). -/
def BulkOperationMode.Clear (b : BulkOperationMode) : BulkOperationMode :=
  { b with selectedIDs := [] }

/-- The SPACE-key branch of the dashboard key handler (part_003, lines
326-332): `ToggleContainer` is invoked only when `bulkMode.IsEnabled()`. -/
def handleSpaceKey (b : BulkOperationMode) (id : String) : BulkOperationMode :=
  if b.IsEnabled then b.ToggleContainer id else b

/-! ## BulkExecutor (src/unnamed/part_004, lines 306-377) -/

/-- The four bulk lifecycle actions dispatched by the `switch` in
`performBulkAction` (part_004, lines 336-345). -/
inductive BulkAction where
  | start
  | stop
  | restart
  | delete

/-- `BulkOperationResult`: the `total`/`success`/`failed` tally of one
`performBulkAction` run (part_004, lines 321-323 and 355-362). -/
structure BulkResult where
  total : ℕ
  success : ℕ
  failed : ℕ

/-- One iteration of the `for i, id := range containerIDs` loop
(part_004, lines 325-352): issue the runtime call for `id`, append it to
the call trace, and bump `success` or `failed` according to the
returned error.  The accumulator is `(success, failed, trace)`. -/
def bulkStep (runtime : BulkAction → String → Bool) (action : BulkAction)
    (acc : ℕ × ℕ × List (BulkAction × String)) (id : String) :
    ℕ × ℕ × List (BulkAction × String) :=
  if runtime action id then (acc.1 + 1, acc.2.1, acc.2.2 ++ [(action, id)])
  else (acc.1, acc.2.1 + 1, acc.2.2 ++ [(action, id)])

/-- `performBulkAction` (part_004, lines 306-377): sequentially process
every id, never aborting, and report the final tally together with the
trace of runtime calls issued.  `total := len(containerIDs)`. -/
def performBulkAction (runtime : BulkAction → String → Bool)
    (action : BulkAction) (ids : List String) :
    BulkResult × List (BulkAction × String) :=
  let r := ids.foldl (bulkStep runtime action) (0, 0, [])
  (⟨ids.length, r.1, r.2.1⟩, r.2.2)

/-- The bulk run threaded through the selection state: the goroutine body
of `performBulkAction` (part_004, lines 320-352) reads and writes no
field of `bulkMode`, so the run returns the selection state it was
given. -/
def performBulkRun (runtime : BulkAction → String → Bool)
    (action : BulkAction) (ids : List String) (bm : BulkOperationMode) :
    BulkResult × List (BulkAction × String) × BulkOperationMode :=
  let pr := performBulkAction runtime action ids
  (pr.1, pr.2, bm)

/-- The key press on the completion screen (part_004, lines 368-374):
`bulkMode.Clear()` followed by `bulkMode.Toggle()`, run only after the
batch has completed. -/
def bulkCompletionKeyHandler (b : BulkOperationMode) : BulkOperationMode :=
  b.Clear.Toggle

/-- Outcome of requesting a bulk action from the menu. -/
inductive MenuOutcome where
  | rejected (title msg : String)
  | completed (r : BulkResult)

/-- The bulk-action request flow: the guard of `ShowBulkActionsMenu`
(part_004, lines 179-184) composed with `performBulkAction`.  With an
empty `GetSelected()` the request is rejected with a user-visible
message before any runtime call; otherwise the action runs over the
selected ids.  The third component is the selection state after the
request. -/
def requestBulkAction (runtime : BulkAction → String → Bool)
    (action : BulkAction) (bm : BulkOperationMode) :
    MenuOutcome × List (BulkAction × String) × BulkOperationMode :=
  let selectedIDs := bm.GetSelected
  if selectedIDs.length = 0 then
    (.rejected "No Selection"
      "Please select at least one container first.\n\nPress SPACE to select containers.",
      [], bm)
  else
    let pr := performBulkAction runtime action selectedIDs
    (.completed pr.1, pr.2, bm)

/-! ## Dashboard refresh and focus (src/unnamed/part_003) -/

/-- The focus-relevant fields of `Dashboard` (part_003, lines 34-50):
the authoritative container list and the focused index (Go `int`). -/
structure Dashboard where
  containers : List ContainerInfo
  selectedIndex : ℤ

/-- The state change of `Dashboard.updateList` (part_003, lines 459-505)
on a successful `ListContainers` fetch: the container list is replaced;
`selectedIndex` is not read or written anywhere in the function (the
remaining statements only rebuild the tview widget texts). -/
def Dashboard.updateList (d : Dashboard) (newContainers : List ContainerInfo) :
    Dashboard :=
  { d with containers := newContainers }

/-- The `list.SetChangedFunc` callback (part_003, lines 232-238):
store the index reported by the list widget only when
`index >= 0 && index < len(d.containers)`. -/
def Dashboard.listChanged (d : Dashboard) (index : ℤ) : Dashboard :=
  if 0 ≤ index ∧ index < (d.containers.length : ℤ) then
    { d with selectedIndex := index }
  else d

/-- The guard of `Dashboard.updateStats` (part_003, lines 399-406): when
the list is empty or `selectedIndex` is out of bounds the worker returns
without sampling; otherwise it targets `containers[selectedIndex]`. -/
def Dashboard.updateStatsTarget (d : Dashboard) : Option ContainerInfo :=
  if d.containers.length = 0 ∨ d.selectedIndex < 0 ∨
      (d.containers.length : ℤ) ≤ d.selectedIndex then none
  else d.containers.get? d.selectedIndex.toNat

/-- A concrete container record used in counterexamples and witnesses. -/
def sampleContainer : ContainerInfo :=
  ⟨"0123456789abcdef", "web", "Up 2 hours", "nginx", "2026-01-01", "80/tcp", "running"⟩

/-! ## Theorems -/

/-- Batteries `Rat.floor` agrees with the Mathlib floor on `ℚ`. -/
lemma rat_floor_eq (q : ℚ) : q.floor = ⌊q⌋ :=
  (Rat.floor_def' q).trans Rat.floor_def.symm

/-- Folding `ToggleContainer` over any id list never changes the
`enabled` flag. -/
lemma foldl_toggleContainer_enabled (ms : List String) :
    ∀ b : BulkOperationMode,
      (ms.foldl BulkOperationMode.ToggleContainer b).enabled = b.enabled := by
  induction ms with
  | nil => intro b; rfl
  | cons m ms ih =>
    intro b
    rw [List.foldl_cons, ih]
    unfold BulkOperationMode.ToggleContainer
    split <;> rfl

/-- C4 counterexample: with bulk mode disabled (the fresh state),
`ToggleContainer "a"` nevertheless inserts `"a"` into the id set — the
claim that it leaves the set unchanged while `enabled` is false is
violated. -/
theorem toggle_member_ungated_cex :
    NewBulkOperationMode.enabled = false ∧
    (NewBulkOperationMode.ToggleContainer "a").selectedIDs = ["a"] ∧
    ¬((NewBulkOperationMode.ToggleContainer "a").selectedIDs
        = NewBulkOperationMode.selectedIDs) := by
  refine ⟨rfl, rfl, ?_⟩
  decide

/-- C4 (amended): `ToggleContainer` adds the id if absent and removes it
if present regardless of the `enabled` flag, and never touches the flag;
the enabled-gating happens one level up, in the SPACE-key handler, which
invokes `ToggleContainer` only while bulk mode is enabled and is a
no-op otherwise. -/
theorem toggle_member_ungated (b : BulkOperationMode) (id : String) :
    (b.ToggleContainer id).enabled = b.enabled ∧
    ((b.ToggleContainer id).selectedIDs =
      if id ∈ b.selectedIDs then b.selectedIDs.erase id
      else b.selectedIDs ++ [id]) ∧
    (∀ s i, handleSpaceKey ⟨false, s⟩ i = ⟨false, s⟩) ∧
    (∀ s i, handleSpaceKey ⟨true, s⟩ i
      = BulkOperationMode.ToggleContainer ⟨true, s⟩ i) := by
  refine ⟨?_, ?_, fun s i => rfl, fun s i => rfl⟩
  · unfold BulkOperationMode.ToggleContainer
    split <;> rfl
  · unfold BulkOperationMode.ToggleContainer
    split <;> simp_all

/-- C5: the bulk-run loop returns the selection state exactly as given —
`enabled` and the id set are untouched for every oracle, action and id
list; the clearing of the selection (`Clear` then `Toggle`) happens only
in the completion-screen key handler, which maps an enabled selection to
the empty disabled state. -/
theorem bulk_run_preserves_selection (runtime : BulkAction → String → Bool)
    (action : BulkAction) (ids : List String) (bm : BulkOperationMode) :
    (performBulkRun runtime action ids bm).2.2 = bm ∧
    (performBulkRun runtime action ids bm).2.2.enabled = bm.enabled ∧
    (performBulkRun runtime action ids bm).2.2.selectedIDs = bm.selectedIDs ∧
    (∀ t, bulkCompletionKeyHandler ⟨true, t⟩ = ⟨false, []⟩) :=
  ⟨rfl, rfl, rfl, fun _ => rfl⟩

/-- C7 counterexample: starting from an enabled selection set, calling
`Toggle`, then `ToggleContainer "a"`, then `Toggle` again ends in a
state that is enabled and still contains `"a"` — not the claimed empty,
disabled state. -/
theorem toggle_twice_cex :
    (((BulkOperationMode.Toggle ⟨true, []⟩).ToggleContainer "a").Toggle).enabled
      = true ∧
    (((BulkOperationMode.Toggle ⟨true, []⟩).ToggleContainer "a").Toggle).selectedIDs
      = ["a"] := by
  refine ⟨rfl, ?_⟩
  decide

/-- C7 (amended): starting from a DISABLED selection set, `Toggle`, any
sequence of `ToggleContainer` calls, then `Toggle` again returns the
empty disabled state, because the second `Toggle` is an enabled→disabled
transition; and indeed every `Toggle` of an enabled state disables the
mode and clears the id set.  (From an initially enabled state the
two-`Toggle` round trip instead re-enables the mode and keeps the
intermediate selections, as the counterexample shows.) -/
theorem toggle_twice_from_disabled (s ms : List String) :
    ((ms.foldl BulkOperationMode.ToggleContainer
        (BulkOperationMode.Toggle ⟨false, s⟩)).Toggle) = ⟨false, []⟩ ∧
    (∀ t : List String, BulkOperationMode.Toggle ⟨true, t⟩ = ⟨false, []⟩) := by
  refine ⟨?_, fun t => rfl⟩
  have hT : BulkOperationMode.Toggle ⟨false, s⟩ = (⟨true, s⟩ : BulkOperationMode) := rfl
  rw [hT]
  have h2 : (ms.foldl BulkOperationMode.ToggleContainer ⟨true, s⟩).enabled = true :=
    foldl_toggleContainer_enabled ms ⟨true, s⟩
  unfold BulkOperationMode.Toggle
  rw [h2]
  rfl

/-- C8: a bulk action requested while the selected-id set is empty is
rejected with the user-visible "No Selection" message, with an empty
runtime-call trace and the selection state returned unchanged. -/
theorem empty_selection_rejected (runtime : BulkAction → String → Bool)
    (action : BulkAction) (bm : BulkOperationMode)
    (h : bm.selectedIDs = []) :
    requestBulkAction runtime action bm =
      (MenuOutcome.rejected "No Selection"
        "Please select at least one container first.\n\nPress SPACE to select containers.",
       [], bm) := by
  unfold requestBulkAction BulkOperationMode.GetSelected
  rw [h]
  rfl

/-- Witness for C8: the fresh bulk mode has an empty selection, and the
request is rejected there. -/
theorem empty_selection_rejected_witness :
    requestBulkAction (fun _ _ => true) BulkAction.start NewBulkOperationMode =
      (MenuOutcome.rejected "No Selection"
        "Please select at least one container first.\n\nPress SPACE to select containers.",
       [], NewBulkOperationMode) :=
  empty_selection_rejected (fun _ _ => true) BulkAction.start NewBulkOperationMode rfl

/-- Unrolling the bulk loop: from any accumulator, the fold adds the
success count, the failure count and the call trace of the remaining
ids. -/
lemma bulk_foldl (runtime : BulkAction → String → Bool) (action : BulkAction) :
    ∀ (ids : List String) (s f : ℕ) (cs : List (BulkAction × String)),
      ids.foldl (bulkStep runtime action) (s, f, cs) =
        (s + ids.countP (runtime action),
         f + ids.countP (fun id => !(runtime action id)),
         cs ++ ids.map (fun id => (action, id))) := by
  intro ids
  induction ids with
  | nil => intro s f cs; simp
  | cons id ids ih =>
    intro s f cs
    rw [List.foldl_cons]
    cases hr : runtime action id with
    | false =>
      have hstep : bulkStep runtime action (s, f, cs) id
          = (s, f + 1, cs ++ [(action, id)]) := by
        unfold bulkStep; rw [hr]; rfl
      rw [hstep, ih]
      simp [List.countP_cons, hr]
      omega
    | true =>
      have hstep : bulkStep runtime action (s, f, cs) id
          = (s + 1, f, cs ++ [(action, id)]) := by
        unfold bulkStep; rw [hr]; rfl
      rw [hstep, ih]
      simp [List.countP_cons, hr]
      omega

/-- Every element is counted once, either by `p` or by its negation. -/
lemma countP_split (p : String → Bool) (l : List String) :
    l.countP p + l.countP (fun a => !(p a)) = l.length := by
  induction l with
  | nil => rfl
  | cons a l ih =>
    cases h : p a <;> simp [List.countP_cons, h] <;> omega

/-- C1: one bulk run issues exactly one runtime call per id, in list
order with no early abort, and reports `total = N`,
`succeeded = number of successful calls`, `failed = number of failed
calls`, with `succeeded + failed = total` — for every id list and every
assignment of success/failure to the runtime calls. -/
theorem bulk_run_tally (runtime : BulkAction → String → Bool)
    (action : BulkAction) (ids : List String) :
    (performBulkAction runtime action ids).2
      = ids.map (fun id => (action, id)) ∧
    (performBulkAction runtime action ids).1.total = ids.length ∧
    (performBulkAction runtime action ids).1.success
      = ids.countP (runtime action) ∧
    (performBulkAction runtime action ids).1.failed
      = ids.countP (fun id => !(runtime action id)) ∧
    (performBulkAction runtime action ids).1.success
        + (performBulkAction runtime action ids).1.failed
      = (performBulkAction runtime action ids).1.total := by
  have h := bulk_foldl runtime action ids 0 0 []
  unfold performBulkAction
  rw [h]
  refine ⟨rfl, rfl, by simp, by simp, ?_⟩
  simp only [Nat.zero_add, List.nil_append]
  exact countP_split (runtime action) ids

/-- One ring-buffer append, starting from the last `cap` elements of
`l`, yields the last `cap` elements of `l ++ [x]`. -/
lemma ringAppend_rtake (cap : ℕ) (l : List ℚ) (x : ℚ) :
    ringAppend cap (l.rtake cap) x = (l ++ [x]).rtake cap := by
  unfold ringAppend List.rtake
  rcases Nat.lt_or_ge l.length cap with h1 | h2
  · rw [Nat.sub_eq_zero_of_le (Nat.le_of_lt h1), List.drop_zero]
    have hlen : (l ++ [x]).length = l.length + 1 := by simp
    rw [if_neg (by simp; omega)]
    rw [hlen, Nat.sub_eq_zero_of_le (by omega), List.drop_zero]
  · have hlen : (l.drop (l.length - cap)).length = cap := by
      rw [List.length_drop]; omega
    rw [if_pos (by simp [hlen])]
    rcases Nat.eq_zero_or_pos cap with hc0 | hcpos
    · subst hc0
      have : l.drop (l.length - 0) = [] := by
        simp [List.drop_length]
      rw [this]
      have : (l ++ [x]).length - 0 = (l ++ [x]).length := by omega
      rw [this, List.drop_length]
      rfl
    · have hd1 : (l.drop (l.length - cap) ++ [x]).drop 1
          = l.drop (l.length - cap + 1) ++ [x] := by
        rw [List.drop_append_of_le_length (by omega), List.drop_drop]
      have harith : l.length - cap + 1 = (l ++ [x]).length - cap := by
        simp; omega
      rw [hd1, harith, List.drop_append_of_le_length (by simp; omega)]

/-- Folding ring-buffer appends from the empty buffer keeps exactly the
last `cap` samples. -/
lemma foldl_ringAppend (cap : ℕ) (samples : List ℚ) :
    samples.foldl (ringAppend cap) [] = samples.rtake cap := by
  induction samples using List.reverseRecOn with
  | nil => simp [List.rtake]
  | append_singleton l x ih =>
    rw [List.foldl_append, List.foldl_cons, List.foldl_nil, ih,
      ringAppend_rtake]

/-- The last-`cap` view of a list is no longer than `cap`. -/
lemma rtake_length_le (cap : ℕ) (l : List ℚ) : (l.rtake cap).length ≤ cap := by
  unfold List.rtake
  rw [List.length_drop]
  omega

/-- Folding `StatsViewer.AddCPU` only rewrites `cpuHistory`, through
`ringAppend` at the viewer's capacity. -/
lemma foldl_addCPU_viewer (samples : List ℚ) :
    ∀ sv : StatsViewer, sv.maxDataPoints = 60 →
      (samples.foldl StatsViewer.AddCPU sv).cpuHistory
        = samples.foldl (ringAppend 60) sv.cpuHistory := by
  induction samples with
  | nil => intro sv _; rfl
  | cons v vs ih =>
    intro sv hcap
    rw [List.foldl_cons, List.foldl_cons,
      ih (sv.AddCPU v) (by rw [← hcap]; rfl)]
    unfold StatsViewer.AddCPU
    rw [hcap]

/-- Folding `StatsViewer.AddMem` only rewrites `memHistory`, through
`ringAppend` at the viewer's capacity. -/
lemma foldl_addMem_viewer (samples : List ℚ) :
    ∀ sv : StatsViewer, sv.maxDataPoints = 60 →
      (samples.foldl StatsViewer.AddMem sv).memHistory
        = samples.foldl (ringAppend 60) sv.memHistory := by
  induction samples with
  | nil => intro sv _; rfl
  | cons v vs ih =>
    intro sv hcap
    rw [List.foldl_cons, List.foldl_cons,
      ih (sv.AddMem v) (by rw [← hcap]; rfl)]
    unfold StatsViewer.AddMem
    rw [hcap]

/-- Folding `StatsHistory.AddCPU` rewrites `cpuHistory` through
`ringAppend 30`. -/
lemma foldl_addCPU_history (samples : List ℚ) :
    ∀ sh : StatsHistory,
      (samples.foldl StatsHistory.AddCPU sh).cpuHistory
        = samples.foldl (ringAppend 30) sh.cpuHistory := by
  induction samples with
  | nil => intro sh; rfl
  | cons v vs ih =>
    intro sh
    rw [List.foldl_cons, List.foldl_cons, ih (sh.AddCPU v)]
    rfl

/-- Folding `StatsHistory.AddMem` rewrites `memHistory` through
`ringAppend 30`. -/
lemma foldl_addMem_history (samples : List ℚ) :
    ∀ sh : StatsHistory,
      (samples.foldl StatsHistory.AddMem sh).memHistory
        = samples.foldl (ringAppend 30) sh.memHistory := by
  induction samples with
  | nil => intro sh; rfl
  | cons v vs ih =>
    intro sh
    rw [List.foldl_cons, List.foldl_cons, ih (sh.AddMem v)]
    rfl

/-- C2: after any sequence of appends starting from a fresh history, the
CPU and memory buffers of `StatsViewer` hold exactly the last
`min (n, 60)` samples in insertion order and never exceed 60 entries,
and those of `StatsHistory` hold the last `min (n, 30)` samples and
never exceed 30 entries. -/
theorem metrics_history_bounded (samples : List ℚ) :
    (samples.foldl StatsViewer.AddCPU NewStatsViewer).cpuHistory
      = samples.rtake 60 ∧
    (samples.foldl StatsViewer.AddCPU NewStatsViewer).cpuHistory.length ≤ 60 ∧
    (samples.foldl StatsViewer.AddMem NewStatsViewer).memHistory
      = samples.rtake 60 ∧
    (samples.foldl StatsViewer.AddMem NewStatsViewer).memHistory.length ≤ 60 ∧
    (samples.foldl StatsHistory.AddCPU NewStatsHistory).cpuHistory
      = samples.rtake 30 ∧
    (samples.foldl StatsHistory.AddCPU NewStatsHistory).cpuHistory.length ≤ 30 ∧
    (samples.foldl StatsHistory.AddMem NewStatsHistory).memHistory
      = samples.rtake 30 ∧
    (samples.foldl StatsHistory.AddMem NewStatsHistory).memHistory.length ≤ 30 := by
  have h1 : (samples.foldl StatsViewer.AddCPU NewStatsViewer).cpuHistory
      = samples.rtake 60 := by
    rw [foldl_addCPU_viewer samples NewStatsViewer rfl]
    exact foldl_ringAppend 60 samples
  have h2 : (samples.foldl StatsViewer.AddMem NewStatsViewer).memHistory
      = samples.rtake 60 := by
    rw [foldl_addMem_viewer samples NewStatsViewer rfl]
    exact foldl_ringAppend 60 samples
  have h3 : (samples.foldl StatsHistory.AddCPU NewStatsHistory).cpuHistory
      = samples.rtake 30 := by
    rw [foldl_addCPU_history samples NewStatsHistory]
    exact foldl_ringAppend 30 samples
  have h4 : (samples.foldl StatsHistory.AddMem NewStatsHistory).memHistory
      = samples.rtake 30 := by
    rw [foldl_addMem_history samples NewStatsHistory]
    exact foldl_ringAppend 30 samples
  exact ⟨h1, h1 ▸ rtake_length_le 60 samples,
         h2, h2 ▸ rtake_length_le 60 samples,
         h3, h3 ▸ rtake_length_le 30 samples,
         h4, h4 ▸ rtake_length_le 30 samples⟩

/-- C3 counterexample: replacing a 5-container list by a 2-container
list while the focus is at index 4 leaves `selectedIndex = 4` — out of
bounds for the new list and in particular not reclamped to 1. -/
theorem refresh_no_reclamp_cex :
    ((Dashboard.mk (List.replicate 5 sampleContainer) 4).updateList
        (List.replicate 2 sampleContainer)).selectedIndex = 4 ∧
    ((Dashboard.mk (List.replicate 5 sampleContainer) 4).updateList
        (List.replicate 2 sampleContainer)).containers.length = 2 ∧
    ¬(((Dashboard.mk (List.replicate 5 sampleContainer) 4).updateList
        (List.replicate 2 sampleContainer)).selectedIndex <
      (((Dashboard.mk (List.replicate 5 sampleContainer) 4).updateList
        (List.replicate 2 sampleContainer)).containers.length : ℤ)) ∧
    ((Dashboard.mk (List.replicate 5 sampleContainer) 4).updateList
        (List.replicate 2 sampleContainer)).selectedIndex ≠ 1 := by
  refine ⟨rfl, rfl, by decide, by decide⟩

/-- C3 (amended): a refresh replaces the container list without touching
the focused index, so the index can be left out of bounds; re-validation
is lazy instead: the list-changed callback stores an index only when it
is within the new bounds (and keeps the old value otherwise), and the
stats worker bails out (`none` target) whenever the stored index is out
of bounds of the current list. -/
theorem refresh_focus_lazy (d : Dashboard) (l : List ContainerInfo) :
    (d.updateList l).containers = l ∧
    (d.updateList l).selectedIndex = d.selectedIndex ∧
    (∀ i : ℤ, 0 ≤ i → i < (l.length : ℤ) →
      ((d.updateList l).listChanged i).selectedIndex = i) ∧
    (∀ i : ℤ, ¬(0 ≤ i ∧ i < (l.length : ℤ)) →
      ((d.updateList l).listChanged i).selectedIndex = d.selectedIndex) ∧
    (¬(0 ≤ d.selectedIndex ∧ d.selectedIndex < (l.length : ℤ)) →
      (d.updateList l).updateStatsTarget = none) := by
  refine ⟨rfl, rfl, ?_, ?_, ?_⟩
  · intro i h0 hl
    unfold Dashboard.listChanged
    rw [if_pos ⟨h0, hl⟩]
  · intro i hni
    unfold Dashboard.listChanged
    rw [show (d.updateList l).containers = l from rfl, if_neg hni]
    rfl
  · intro hn
    have hc : (d.updateList l).containers.length = 0 ∨
        (d.updateList l).selectedIndex < 0 ∨
        (((d.updateList l).containers.length : ℤ) ≤ (d.updateList l).selectedIndex) := by
      have h1 : (d.updateList l).containers = l := rfl
      have h2 : (d.updateList l).selectedIndex = d.selectedIndex := rfl
      rw [h1, h2]
      push_neg at hn
      rcases lt_or_le d.selectedIndex 0 with h | h
      · exact Or.inr (Or.inl h)
      · exact Or.inr (Or.inr (hn h))
    unfold Dashboard.updateStatsTarget
    rw [if_pos hc]

/-- Witness for C3 (amended): on the 5→2 shrink with stale focus 4, the
stats worker yields no target, and an in-bounds changed-callback index 1
is stored. -/
theorem refresh_focus_lazy_witness :
    ((Dashboard.mk (List.replicate 5 sampleContainer) 4).updateList
        (List.replicate 2 sampleContainer)).updateStatsTarget = none ∧
    (((Dashboard.mk (List.replicate 5 sampleContainer) 4).updateList
        (List.replicate 2 sampleContainer)).listChanged 1).selectedIndex = 1 :=
  ⟨(refresh_focus_lazy ⟨List.replicate 5 sampleContainer, 4⟩
      (List.replicate 2 sampleContainer)).2.2.2.2 (by decide),
   (refresh_focus_lazy ⟨List.replicate 5 sampleContainer, 4⟩
      (List.replicate 2 sampleContainer)).2.2.1 1 (by decide) (by decide)⟩

/-- For nonnegative arguments Go truncation is the floor. -/
lemma goTrunc_of_nonneg (q : ℚ) (h : 0 ≤ q) : goTrunc q = ⌊q⌋ := by
  unfold goTrunc
  rw [if_pos h, rat_floor_eq]

/-- C10: `DrawGraph` first clamps the value into `[0,100]` and returns
exactly `w` cells: `⌊clamped/100 * w⌋` filled cells followed by the
remaining empty cells. -/
theorem draw_graph_clamped_cells (v : ℚ) (w : ℕ) :
    (DrawGraph v w).length = w ∧
    DrawGraph v w
      = List.replicate (⌊min (max v 0) 100 / 100 * (w : ℚ)⌋).toNat '█'
        ++ List.replicate (w - (⌊min (max v 0) 100 / 100 * (w : ℚ)⌋).toNat) '░' := by
  set c := min (max v 0) 100 with hc
  have hclamp : (if (if v < 0 then (0:ℚ) else v) > 100 then (100:ℚ)
      else (if v < 0 then (0:ℚ) else v)) = c := by
    rcases lt_or_le v 0 with h | h
    · rw [if_pos h, if_neg (by norm_num), hc, max_eq_right h.le]
      norm_num
    · rw [if_neg (not_lt.2 h)]
      rcases le_or_lt v 100 with h2 | h2
      · rw [if_neg (not_lt.2 h2), hc, max_eq_left h, min_eq_left h2]
      · rw [if_pos h2, hc, max_eq_left h, min_eq_right h2.le]
  have hc0 : 0 ≤ c := le_min (le_max_right v 0) (by norm_num)
  have hc100 : c ≤ 100 := min_le_right _ _
  have hx0 : 0 ≤ c / 100 * (w : ℚ) := by positivity
  have hxw : c / 100 * (w : ℚ) ≤ (w : ℚ) := by
    have h1 : c / 100 ≤ 1 := by
      rw [div_le_one (by norm_num : (0:ℚ) < 100)]
      exact hc100
    calc c / 100 * (w : ℚ) ≤ 1 * (w : ℚ) :=
          mul_le_mul_of_nonneg_right h1 (by positivity)
      _ = (w : ℚ) := one_mul _
  have hfl : (0:ℤ) ≤ ⌊c / 100 * (w : ℚ)⌋ := Int.floor_nonneg.2 hx0
  have hfw : ⌊c / 100 * (w : ℚ)⌋ ≤ (w : ℤ) := by
    have h := Int.floor_le_floor hxw
    rwa [Int.floor_natCast] at h
  have heq : DrawGraph v w
      = List.replicate (⌊c / 100 * (w : ℚ)⌋).toNat '█'
        ++ List.replicate ((w : ℤ) - ⌊c / 100 * (w : ℚ)⌋).toNat '░' := by
    simp only [DrawGraph]
    rw [hclamp, goTrunc_of_nonneg _ hx0]
  constructor
  · rw [heq, List.length_append, List.length_replicate, List.length_replicate]
    omega
  · rw [heq]
    congr 1
    congr 1
    omega

/-- The Go update step of the max loop is the binary maximum. -/
lemma goMax_step (m v : ℚ) : (if v > m then v else m) = max m v := by
  rcases le_or_lt v m with h | h
  · rw [if_neg (not_lt.2 h), max_eq_left h]
  · rw [if_pos h, max_eq_right h.le]

/-- `goMax` is a fold of the binary maximum started at `0`. -/
lemma goMax_eq_foldl (data : List ℚ) : goMax data = data.foldl max 0 := by
  unfold goMax
  congr 1
  funext m v
  exact goMax_step m v

/-- The starting accumulator is below the fold of the maximum. -/
lemma le_foldl_max (l : List ℚ) : ∀ a : ℚ, a ≤ l.foldl max a := by
  induction l with
  | nil => intro a; exact le_refl a
  | cons v l ih =>
    intro a
    exact le_trans (le_max_left a v) (ih (max a v))

/-- Every member is below the fold of the maximum. -/
lemma mem_le_foldl_max (l : List ℚ) : ∀ (a v : ℚ), v ∈ l → v ≤ l.foldl max a := by
  induction l with
  | nil => intro a v hv; cases hv
  | cons u l ih =>
    intro a v hv
    rcases List.mem_cons.1 hv with h | h
    · subst h
      exact le_trans (le_max_right a v) (le_foldl_max l (max a v))
    · exact ih (max a u) v h

/-- If the observed maximum is `0`, every sample is nonpositive. -/
lemma goMax_zero_nonpos (data : List ℚ) (h : goMax data = 0) :
    ∀ v ∈ data, v ≤ 0 := by
  intro v hv
  have hle := mem_le_foldl_max data 0 v hv
  rw [← goMax_eq_foldl, h] at hle
  exact hle

/-- The ceiling of a negative rational is nonpositive (directly from the
Batteries definition, where `/` is Euclidean division). -/
lemma rat_ceil_nonpos {q : ℚ} (h : q < 0) : q.ceil ≤ 0 := by
  have hnum : q.num < 0 := by
    rcases lt_or_le q.num 0 with h' | h'
    · exact h'
    · exact absurd (Rat.num_nonneg.1 h') (not_le.2 h)
  unfold Rat.ceil
  split
  · omega
  · have hden : (0:ℤ) < (q.den : ℤ) := by exact_mod_cast q.den_pos
    have hdiv : q.num / (q.den : ℤ) < 0 := Int.ediv_neg' hnum hden
    omega

/-- Go truncation of a nonpositive rational is nonpositive. -/
lemma goTrunc_nonpos {q : ℚ} (h : q ≤ 0) : goTrunc q ≤ 0 := by
  unfold goTrunc
  split
  · rename_i h0
    have hq : q = 0 := le_antisymm h h0
    subst hq
    rw [rat_floor_eq]
    simp
  · rename_i h0
    exact rat_ceil_nonpos (lt_of_not_le h0)

/-- With denominator `1`, a nonpositive sample selects the baseline
intensity level. -/
lemma levelIdx_nonpos (v : ℚ) (hv : v ≤ 0) : levelIdx 1 v = 0 := by
  have h7 : v / 1 * 7 ≤ 0 := by
    rw [div_one]
    have := mul_le_mul_of_nonneg_right hv (by norm_num : (0:ℚ) ≤ 7)
    simpa using this
  have hg : goTrunc (v / 1 * 7) ≤ 0 := goTrunc_nonpos h7
  simp only [levelIdx]
  rcases lt_or_le (goTrunc (v / 1 * 7)) 0 with h | h
  · rw [if_pos h]
    norm_num
  · have h0 : goTrunc (v / 1 * 7) = 0 := le_antisymm hg h
    rw [h0]
    norm_num

/-- C9: whenever the observed maximum of the buffer is `0`, the
normalization denominator becomes `1` (never `0`), every emitted
intensity level is the baseline level `0`, and consequently every byte
of the sparkline / mini-graph output belongs to the baseline character
`▁`. -/
theorem zero_max_baseline (data : List ℚ) (w : ℕ) (h : goMax data = 0) :
    sparkDenom data = 1 ∧
    (∀ l ∈ sparkLevels data w, l = 0) ∧
    (∀ b ∈ createSparkline data w, b ∈ blockBytes 0) ∧
    (∀ b ∈ createMiniGraph data w, b ∈ blockBytes 0) := by
  have hden : sparkDenom data = 1 := by
    unfold sparkDenom
    rw [if_pos h]
  have hlvl : ∀ v ∈ data, levelIdx (sparkDenom data) v = 0 := by
    intro v hv
    rw [hden]
    exact levelIdx_nonpos v (goMax_zero_nonpos data h v hv)
  have hlevels : ∀ l ∈ sparkLevels data w, l = 0 := by
    intro l hl
    unfold sparkLevels at hl
    rcases List.mem_append.1 hl with h1 | h1
    · exact List.eq_of_mem_replicate h1
    · rcases List.mem_map.1 h1 with ⟨v, hv, hres⟩
      rw [← hres]
      exact hlvl v hv
  refine ⟨hden, hlevels, ?_, ?_⟩
  · intro b hb
    unfold createSparkline at hb
    split at hb
    · rcases List.mem_flatten.1 hb with ⟨bs, hbs, hbin⟩
      rw [List.eq_of_mem_replicate hbs] at hbin
      exact hbin
    · have hb' : b ∈ ((sparkLevels data w).map blockBytes).flatten := by
        rcases lt_or_le w (((sparkLevels data w).map blockBytes).flatten).length
          with hlt | hle
        · rw [if_pos hlt] at hb
          exact List.mem_of_mem_drop hb
        · rw [if_neg (not_lt.2 hle)] at hb
          exact hb
      rcases List.mem_flatten.1 hb' with ⟨bs, hbs, hbin⟩
      rcases List.mem_map.1 hbs with ⟨l, hlmem, hres⟩
      rw [← hres, hlevels l hlmem] at hbin
      exact hbin
  · intro b hb
    unfold createMiniGraph at hb
    split at hb
    · cases hb
    · rcases List.mem_flatten.1 hb with ⟨bs, hbs, hbin⟩
      rcases List.mem_map.1 hbs with ⟨l, hlmem, hres⟩
      rcases List.mem_map.1 hlmem with ⟨v, hv, hlv⟩
      rw [← hres, ← hlv, hlvl v hv] at hbin
      exact hbin

/-- Witness for C9: the two-sample zero buffer has observed maximum `0`,
and the theorem applies to it at width 3. -/
theorem zero_max_baseline_witness :
    goMax [(0:ℚ), 0] = 0 ∧
    (sparkDenom [(0:ℚ), 0] = 1 ∧
     (∀ l ∈ sparkLevels [(0:ℚ), 0] 3, l = 0) ∧
     (∀ b ∈ createSparkline [(0:ℚ), 0] 3, b ∈ blockBytes 0) ∧
     (∀ b ∈ createMiniGraph [(0:ℚ), 0] 3, b ∈ blockBytes 0)) :=
  ⟨by decide, zero_max_baseline [(0:ℚ), 0] 3 (by decide)⟩

set_option maxRecDepth 8000

/-- C6 (code bug): the render width contract breaks on any non-empty
buffer.  With the single sample `50` and width 60, `createSparkline`
builds the intended 60 block characters (180 bytes) but then slices the
string with Go's BYTE-based `len`/indexing, returning the last 60 bytes
— only 20 characters.  The empty-buffer branch (no slicing) does return
60 characters (180 bytes), so the two branches disagree.  Moreover
`createMiniGraph` ignores its width argument (one character per sample,
no padding: width 30 yields 1 character for 1 sample), and an empty
`StatsHistory` renders as the empty string, not as `w` baseline cells. -/
theorem sparkline_byte_truncation :
    (createSparkline [50] 60).length = 60 ∧
    utf8Count (createSparkline [50] 60) = 20 ∧
    (createSparkline [] 60).length = 180 ∧
    utf8Count (createSparkline [] 60) = 60 ∧
    utf8Count (createMiniGraph [50] 30) = 1 ∧
    NewStatsHistory.GetCPUGraph = [] := by
  have hden : sparkDenom [50] = 50 := by
    simp only [sparkDenom, goMax, List.foldl_cons, List.foldl_nil]
    norm_num
  have hlvl : levelIdx (sparkDenom [50]) 50 = 7 := by
    rw [hden]
    simp only [levelIdx, goTrunc]
    norm_num [rat_floor_eq]
    decide
  have hlv : sparkLevels [50] 60 = List.replicate 59 0 ++ [7] := by
    simp only [sparkLevels, List.map_cons, List.map_nil, hlvl]
    decide
  have hmap : ([(50:ℚ)].map (levelIdx (sparkDenom [50]))) = [7] := by
    simp only [List.map_cons, List.map_nil, hlvl]
  unfold createSparkline createMiniGraph StatsHistory.GetCPUGraph
  rw [hlv, hmap]
  decide

end DockPulse
